import Mathlib

/-!
# Verification of the CC-CEDICT reader (`pycccedict/cccedict.py`)

A shallow embedding of the line parser and the dictionary store of the
`CcCedict` class.  Lines of the data file are Lean `String`s; the Python
string operations used by the source (`str.strip`, `str.rstrip('/')`,
`str.split` with and without separator / maxsplit) are modelled on the
underlying character lists with Python's semantics.
-/

/-- Python `str.isspace` characters relevant to `str.strip()` / `str.split()`
(ASCII whitespace; the spec fixes headword splitting to ASCII whitespace). -/
def isPySpace (c : Char) : Bool :=
  c = ' ' || c = '\t' || c = '\n' || c = '\r' || c = '\x0b' || c = '\x0c'

/-- Python `line.strip()`: remove leading and trailing whitespace. -/
def pyStrip (l : List Char) : List Char :=
  ((l.dropWhile isPySpace).reverse.dropWhile isPySpace).reverse

/-- Python `line.rstrip('/')`: remove every trailing `'/'` character. -/
def rstripSlash (l : List Char) : List Char :=
  (l.reverse.dropWhile (fun c => c = '/')).reverse

/-- Python `s.startswith(p)` on the underlying characters. -/
def listStartsWith : List Char → List Char → Bool
  | _, [] => true
  | [], _ :: _ => false
  | c :: cs, p :: ps => c = p && listStartsWith cs ps

/-- Python `s.split(sep, maxsplit=1)` when the separator occurs
(two pieces); `none` when the separator is absent (Python would return a
single-element list, making a two-name unpacking fail). -/
def splitOnce (sep : Char) : List Char → Option (List Char × List Char)
  | [] => none
  | c :: rest =>
    if c = sep then some ([], rest)
    else
      match splitOnce sep rest with
      | none => none
      | some (a, b) => some (c :: a, b)

/-- Python `s.split(sep)` (full split, empty pieces kept; `"".split(sep)`
is `[""]`). -/
def splitAll (sep : Char) : List Char → List (List Char)
  | [] => [[]]
  | c :: rest =>
    let r := splitAll sep rest
    if c = sep then [] :: r
    else
      match r with
      | [] => [[c]]
      | h :: t => (c :: h) :: t

/-- Worker for `pySplitWs`; `acc` holds the reversed current word. -/
def wsAux : List Char → List Char → List (List Char)
  | [], acc => if acc.isEmpty then [] else [acc.reverse]
  | c :: rest, acc =>
    if isPySpace c then
      if acc.isEmpty then wsAux rest []
      else acc.reverse :: wsAux rest []
    else wsAux rest (c :: acc)

/-- Python `s.split()` (no argument): split on whitespace runs, dropping
empty pieces. -/
def pySplitWs (l : List Char) : List (List Char) := wsAux l []

/-- Python tuple unpacking `a, b = l` for a list: exactly two elements or a
`ValueError`, with CPython's messages. -/
def unpack2 {α : Type} : List α → Except String (α × α)
  | [a, b] => .ok (a, b)
  | [] => .error "not enough values to unpack (expected 2, got 0)"
  | [_] => .error "not enough values to unpack (expected 2, got 1)"
  | _ => .error "too many values to unpack (expected 2)"

/-- One parsed dictionary entry (the dict literal built by `_parse_line`). -/
structure Entry where
  traditional : String
  simplified : String
  pinyin : String
  definitions : List String
deriving Repr, DecidableEq

/-- A naive broken-down timestamp, modelling Python's `datetime` as produced
by `strptime` with the fixed format `%Y-%m-%dT%H:%M:%SZ`. -/
structure DateTime where
  year : Nat
  month : Nat
  day : Nat
  hour : Nat
  minute : Nat
  second : Nat
deriving Repr, DecidableEq

def isDigitCh (c : Char) : Bool := '0' ≤ c && c ≤ '9'

def dval (c : Char) : Nat := c.toNat - 48

/-- Exactly four digits (CPython strptime `%Y`). -/
def read4 : List Char → Option (Nat × List Char)
  | a :: b :: c :: d :: rest =>
    if isDigitCh a && isDigitCh b && isDigitCh c && isDigitCh d then
      some (1000 * dval a + 100 * dval b + 10 * dval c + dval d, rest)
    else none
  | _ => none

/-- One or two digits, greedily (CPython strptime `%m`, `%d`, `%H`, `%M`,
`%S`; the range check is done by the caller). -/
def read12 : List Char → Option (Nat × List Char)
  | [] => none
  | a :: rest =>
    if isDigitCh a then
      match rest with
      | b :: rest2 =>
        if isDigitCh b then some (10 * dval a + dval b, rest2)
        else some (dval a, rest)
      | [] => some (dval a, [])
    else none

def expectCh (c : Char) : List Char → Option (List Char)
  | x :: rest => if x = c then some rest else none
  | [] => none

/-- Models `datetime.strptime(s, "%Y-%m-%dT%H:%M:%SZ")`: fixed shape
`YYYY-MM-DDTHH:MM:SSZ` with the field ranges CPython's `_strptime`
regular expressions enforce; no leftover input allowed. -/
def strptimeZCore (cs : List Char) : Option DateTime := do
  let (y, r1) ← read4 cs
  let r2 ← expectCh '-' r1
  let (mo, r3) ← read12 r2
  let r4 ← expectCh '-' r3
  let (d, r5) ← read12 r4
  let r6 ← expectCh 'T' r5
  let (h, r7) ← read12 r6
  let r8 ← expectCh ':' r7
  let (mi, r9) ← read12 r8
  let r10 ← expectCh ':' r9
  let (s, r11) ← read12 r10
  let r12 ← expectCh 'Z' r11
  if r12 = [] ∧ 1 ≤ mo ∧ mo ≤ 12 ∧ 1 ≤ d ∧ d ≤ 31 ∧ h ≤ 23 ∧ mi ≤ 59 ∧ s ≤ 61 then
    some ⟨y, mo, d, h, mi, s⟩
  else none

/-- `strptime` raising `ValueError` on mismatch. -/
def strptimeZ (cs : List Char) : Except String DateTime :=
  match strptimeZCore cs with
  | some dt => .ok dt
  | none => .error "time data does not match format %Y-%m-%dT%H:%M:%SZ"

/-- The outcome of `CcCedict._parse_line` on one line: an entry, the skip
signal (`return None`), or the skip signal together with the timestamp
side effect on `self._data_datetime` (`.stamp`). -/
inductive LineOut where
  | skip : LineOut
  | stamp : DateTime → LineOut
  | entry : Entry → LineOut
deriving Repr, DecidableEq

/-- The characters of the literal `DATE_TAG = "#! date="`. -/
def DATE_TAG : List Char := ['#', '!', ' ', 'd', 'a', 't', 'e', '=']

/-- Source lines 176-179: split the english part on `/` into senses, each
sense on `;` into glosses, and flatten into the definitions list. -/
def defsOf (english : List Char) : List String :=
  (((splitAll '/' english).map (splitAll ';')).flatten).map (fun g => ⟨g⟩)

/-- The body of `_parse_line` after the comment check and the
`strip`/`rstrip('/')` preprocessing (source lines 166-186): split off the
english part at the first `/`, split the chinese part at `[` (exactly one
expected), split the headwords on whitespace (exactly two expected), drop
the last character of the pinyin segment, and flatten the `/`- and
`;`-splits of the english part into `definitions` (`defsOf`). -/
def parse_data_line (l : List Char) : Except String Entry :=
  match splitOnce '/' l with
  | none => .error "not enough values to unpack (expected 2, got 1)"
  | some (chinese0, english) =>
    match unpack2 (splitAll '[' (pyStrip chinese0)) with
    | .error m => .error m
    | .ok (ts0, pinyinBr) =>
      match unpack2 (pySplitWs (pyStrip ts0)) with
      | .error m => .error m
      | .ok (trad, simpl) =>
        .ok { traditional := ⟨trad⟩
              simplified := ⟨simpl⟩
              pinyin := ⟨pinyinBr.dropLast⟩
              definitions := defsOf english }

/-- `CcCedict._parse_line` (source lines 152-186).  The comment check is on
the raw, untrimmed line; a `#! date=` line parses its timestamp with
`strptime` (propagating its error) and otherwise a `#` line is skipped;
any other line is stripped, has every trailing `/` removed, and is parsed
as a data line. -/
def parse_line (line : String) : Except String LineOut :=
  let cs := line.data
  if listStartsWith cs ['#'] then
    if listStartsWith cs DATE_TAG then
      match strptimeZ (pyStrip (cs.drop DATE_TAG.length)) with
      | .ok dt => .ok (.stamp dt)
      | .error m => .error m
    else
      .ok .skip
  else
    match parse_data_line (rstripSlash (pyStrip cs)) with
    | .ok e => .ok (.entry e)
    | .error m => .error m

/-- The in-memory store built by `CcCedict.__init__` / `_parse_file`:
the ordered entry list, the two headword-to-position dicts, and the
optional data timestamp. -/
structure Store where
  entries : List Entry
  simplified_to_index : List (String × Nat)
  traditional_to_index : List (String × Nat)
  data_datetime : Option DateTime
deriving Repr, DecidableEq

/-- Python dict assignment `d[k] = v` (an association list where the most
recent binding wins). -/
def dictSet (d : List (String × Nat)) (k : String) (v : Nat) : List (String × Nat) :=
  d ++ [(k, v)]

/-- Python dict lookup: the most recently assigned value for `k`, if any. -/
def dictGet (d : List (String × Nat)) (k : String) : Option Nat :=
  (d.reverse.find? (fun p => p.1 == k)).map (fun p => p.2)

/-- The loop of `CcCedict._parse_file` (source lines 137-150): `i` counts
appended entries; a parse error propagates and aborts the build. -/
def parseFileAux : List String → Store → Nat → Except String Store
  | [], st, _ => .ok st
  | line :: rest, st, i =>
    match parse_line line with
    | .error m => .error m
    | .ok .skip => parseFileAux rest st i
    | .ok (.stamp dt) => parseFileAux rest { st with data_datetime := some dt } i
    | .ok (.entry e) =>
      parseFileAux rest
        { entries := st.entries ++ [e]
          simplified_to_index := dictSet st.simplified_to_index e.simplified i
          traditional_to_index := dictSet st.traditional_to_index e.traditional i
          data_datetime := st.data_datetime } (i + 1)

/-- `CcCedict.__init__` + `_parse_file`: start from the empty store with no
timestamp and fold over the file's lines; an error means the constructor
raised and no store is exposed. -/
def buildStore (lines : List String) : Except String Store :=
  parseFileAux lines { entries := [], simplified_to_index := [],
                       traditional_to_index := [], data_datetime := none } 0

/-- `CcCedict.get_entry` (source lines 105-117): check the simplified
index, then the traditional index, else `None`. -/
def get_entry (st : Store) (chinese : String) : Option Entry :=
  match dictGet st.simplified_to_index chinese with
  | some i => st.entries[i]?
  | none =>
    match dictGet st.traditional_to_index chinese with
    | some i => st.entries[i]?
    | none => none

/-- `CcCedict.get_entries`. -/
def get_entries (st : Store) : List Entry := st.entries

def isLeap (y : Nat) : Bool := y % 4 == 0 && (y % 100 != 0 || y % 400 == 0)

/-- Cumulative day counts before each month in a common year. -/
def cumDays : Nat → Nat
  | 1 => 0 | 2 => 31 | 3 => 59 | 4 => 90 | 5 => 120 | 6 => 151
  | 7 => 181 | 8 => 212 | 9 => 243 | 10 => 273 | 11 => 304 | 12 => 334
  | _ => 0

/-- Python `date.toordinal` (proleptic Gregorian day number, 0001-01-01 = 1). -/
def toOrdinal (dt : DateTime) : Int :=
  365 * ((dt.year : Int) - 1) + ((dt.year : Int) - 1) / 4 - ((dt.year : Int) - 1) / 100
    + ((dt.year : Int) - 1) / 400 + (cumDays dt.month : Int)
    + (if 2 < dt.month ∧ isLeap dt.year then 1 else 0) + (dt.day : Int)

/-- Seconds since the proleptic epoch; `datetime` subtraction works on this. -/
def toSeconds (dt : DateTime) : Int :=
  toOrdinal dt * 86400 + (dt.hour : Int) * 3600 + (dt.minute : Int) * 60 + (dt.second : Int)

/-- `CcCedict.get_data_days_old` (source lines 27-43): raise
`ValueError("Data datetime is not set.")` when no timestamp was recorded,
else `(now - self._data_datetime).days` (floor of the difference in days,
as for Python's `timedelta.days`).  `datetime.utcnow()` is passed in
explicitly as `now`. -/
def get_data_days_old (st : Store) (now : DateTime) : Except String Int :=
  match st.data_datetime with
  | none => .error "Data datetime is not set."
  | some dt => .ok (Int.fdiv (toSeconds now - toSeconds dt) 86400)

example : parse_line "愛 爱 [ai4] /love/affection/" =
    .ok (.entry { traditional := "愛", simplified := "爱", pinyin := "ai4",
                  definitions := ["love", "affection"] }) := rfl

example : parse_line "a b [c] /love//" =
    .ok (.entry { traditional := "a", simplified := "b", pinyin := "c",
                  definitions := ["love"] }) := rfl

example : parse_line "" = .error "not enough values to unpack (expected 2, got 1)" := rfl

example : parse_line "#! date=2024-11-18T23:06:27Z" =
    .ok (.stamp ⟨2024, 11, 18, 23, 6, 27⟩) := rfl

/-! ## Helper lemmas about the embedded string operations -/

theorem mem_of_mem_pyStrip {c : Char} {l : List Char} (h : c ∈ pyStrip l) : c ∈ l := by
  unfold pyStrip at h
  rw [List.mem_reverse] at h
  have h2 := List.Sublist.mem h (List.dropWhile_sublist _)
  rw [List.mem_reverse] at h2
  exact List.Sublist.mem h2 (List.dropWhile_sublist _)

theorem mem_of_mem_rstripSlash {c : Char} {l : List Char} (h : c ∈ rstripSlash l) : c ∈ l := by
  unfold rstripSlash at h
  rw [List.mem_reverse] at h
  have h2 := List.Sublist.mem h (List.dropWhile_sublist _)
  rwa [List.mem_reverse] at h2

theorem splitOnce_eq_none {sep : Char} {l : List Char} (h : sep ∉ l) :
    splitOnce sep l = none := by
  induction l with
  | nil => rfl
  | cons a t ih =>
    have ha : ¬ (a = sep) := fun he => h (he ▸ List.mem_cons_self a t)
    have ht : sep ∉ t := fun hm => h (List.mem_cons_of_mem _ hm)
    simp [splitOnce, ha, ih ht]

theorem splitOnce_append {sep : Char} {a b : List Char} (h : sep ∉ a) :
    splitOnce sep (a ++ sep :: b) = some (a, b) := by
  induction a with
  | nil => simp [splitOnce]
  | cons x t ih =>
    have hx : ¬ (x = sep) := fun he => h (he ▸ List.mem_cons_self x t)
    have ht : sep ∉ t := fun hm => h (List.mem_cons_of_mem _ hm)
    simp [splitOnce, hx, ih ht]

theorem splitAll_no_sep {sep : Char} {l : List Char} (h : sep ∉ l) :
    splitAll sep l = [l] := by
  induction l with
  | nil => rfl
  | cons x t ih =>
    have hx : ¬ (x = sep) := fun he => h (he ▸ List.mem_cons_self x t)
    have ht : sep ∉ t := fun hm => h (List.mem_cons_of_mem _ hm)
    simp [splitAll, hx, ih ht]

theorem splitAll_append {sep : Char} {a b : List Char} (h : sep ∉ a) :
    splitAll sep (a ++ sep :: b) = a :: splitAll sep b := by
  induction a with
  | nil => simp [splitAll]
  | cons x t ih =>
    have hx : ¬ (x = sep) := fun he => h (he ▸ List.mem_cons_self x t)
    have ht : sep ∉ t := fun hm => h (List.mem_cons_of_mem _ hm)
    simp only [List.cons_append, splitAll, List.append_eq]
    rw [if_neg hx, ih ht]

theorem unpack2_error_of_length {α : Type} (l : List α) (h : l.length ≠ 2) :
    ∃ m, unpack2 l = .error m := by
  match l with
  | [] => exact ⟨_, rfl⟩
  | [a] => exact ⟨_, rfl⟩
  | [a, b] => simp at h
  | a :: b :: c :: t => exact ⟨_, rfl⟩

theorem dropWhile_eq_self_of_head {p : Char → Bool} {l : List Char}
    (h : ∀ c, l.head? = some c → p c = false) : l.dropWhile p = l := by
  cases l with
  | nil => rfl
  | cons a t => exact List.dropWhile_cons_of_neg (by simp [h a rfl])

theorem pyStrip_eq_self {l : List Char}
    (h1 : ∀ c, l.head? = some c → isPySpace c = false)
    (h2 : ∀ c, l.getLast? = some c → isPySpace c = false) :
    pyStrip l = l := by
  unfold pyStrip
  rw [dropWhile_eq_self_of_head h1]
  rw [dropWhile_eq_self_of_head
    (fun c hc => h2 c (by rwa [List.head?_reverse] at hc))]
  exact List.reverse_reverse l

theorem rstripSlash_eq_self {l : List Char}
    (h : ∀ c, l.getLast? = some c → ¬ (c = '/')) :
    rstripSlash l = l := by
  unfold rstripSlash
  rw [dropWhile_eq_self_of_head
    (fun c hc => by simp [h c (by rwa [List.head?_reverse] at hc)])]
  exact List.reverse_reverse l

theorem wsAux_append_nonspace {t : List Char}
    (h : ∀ c ∈ t, isPySpace c = false) (r acc : List Char) :
    wsAux (t ++ r) acc = wsAux r (t.reverse ++ acc) := by
  induction t generalizing acc with
  | nil => simp
  | cons c t' ih =>
    have hc := h c (List.mem_cons_self c t')
    have ht' : ∀ x ∈ t', isPySpace x = false := fun x hx => h x (List.mem_cons_of_mem _ hx)
    simp only [List.cons_append, wsAux, hc, Bool.false_eq_true, if_false, List.append_eq]
    rw [ih ht' (c :: acc)]
    simp

theorem wsAux_nonspace_all {s : List Char} (hs : s ≠ [])
    (h : ∀ c ∈ s, isPySpace c = false) :
    wsAux s [] = [s] := by
  have := wsAux_append_nonspace h [] []
  simp only [List.append_nil] at this
  rw [this]
  have : s.reverse.isEmpty = false := by
    simp [List.isEmpty_iff, hs]
  simp [wsAux, this]

theorem pySplitWs_pair {t s : List Char} (ht0 : t ≠ []) (hs0 : s ≠ [])
    (h1 : ∀ c ∈ t, isPySpace c = false) (h2 : ∀ c ∈ s, isPySpace c = false) :
    pySplitWs (t ++ ' ' :: s) = [t, s] := by
  unfold pySplitWs
  rw [wsAux_append_nonspace h1 (' ' :: s) []]
  have hacc : (t.reverse).isEmpty = false := by simp [List.isEmpty_iff, ht0]
  simp only [List.append_nil, wsAux, isPySpace]
  simp [hacc, wsAux_nonspace_all hs0 h2]

theorem mem_of_getLast?_some {l : List Char} {c : Char} (h : l.getLast? = some c) :
    c ∈ l := by
  rw [List.getLast?_eq_head?_reverse] at h
  cases hr : l.reverse with
  | nil => rw [hr] at h; simp at h
  | cons a tl =>
    rw [hr] at h
    simp only [List.head?] at h
    cases h
    have ha : c ∈ l.reverse := by rw [hr]; exact List.mem_cons_self c tl
    rwa [List.mem_reverse] at ha

/-- A well-formed data line assembled from its four components:
traditional headword, space, simplified headword, space, `[`, pinyin
segment, `/`, english part. -/
def lineOf (t s pb eng : List Char) : List Char :=
  t ++ [' '] ++ s ++ [' ', '['] ++ pb ++ ['/'] ++ eng

theorem parse_data_line_lineOf
    (t s pb eng : List Char)
    (ht0 : t ≠ []) (hs0 : s ≠ [])
    (ht : ∀ c ∈ t, isPySpace c = false ∧ ¬ (c = '[') ∧ ¬ (c = '/'))
    (hs : ∀ c ∈ s, isPySpace c = false ∧ ¬ (c = '[') ∧ ¬ (c = '/'))
    (hpb : ∀ c ∈ pb, ¬ (c = '[') ∧ ¬ (c = '/'))
    (hpbl : ∀ c, pb.getLast? = some c → isPySpace c = false) :
    parse_data_line (lineOf t s pb eng) =
      .ok { traditional := ⟨t⟩, simplified := ⟨s⟩, pinyin := ⟨pb.dropLast⟩,
            definitions := defsOf eng } := by
  have hheadT : ∀ (R : List Char) (c : Char),
      (t ++ R).head? = some c → isPySpace c = false := by
    intro R c hc
    rw [List.head?_append_of_ne_nil t ht0] at hc
    exact (ht c (List.mem_of_mem_head? hc)).1
  have hshape : lineOf t s pb eng =
      (t ++ [' '] ++ s ++ [' ', '['] ++ pb) ++ '/' :: eng := by
    simp [lineOf, List.append_assoc]
  have hslash : ¬ ('/' ∈ t ++ [' '] ++ s ++ [' ', '['] ++ pb) := by
    intro hmem
    rcases List.mem_append.1 hmem with hm | hm
    · rcases List.mem_append.1 hm with hm2 | hm2
      · rcases List.mem_append.1 hm2 with hm3 | hm3
        · rcases List.mem_append.1 hm3 with hm4 | hm4
          · exact (ht _ hm4).2.2 rfl
          · simp at hm4
        · exact (hs _ hm3).2.2 rfl
      · simp at hm2
    · exact (hpb _ hm).2 rfl
  have hpych : pyStrip (t ++ [' '] ++ s ++ [' ', '['] ++ pb) =
      t ++ [' '] ++ s ++ [' ', '['] ++ pb := by
    apply pyStrip_eq_self
    · intro c hc
      have : (t ++ ([' '] ++ s ++ [' ', '['] ++ pb)).head? = some c := by
        simpa [List.append_assoc] using hc
      exact hheadT _ c this
    · intro c hc
      cases hq : pb with
      | nil =>
        rw [hq] at hc
        simp only [List.append_nil] at hc
        have : ((t ++ [' '] ++ s ++ [' ']) ++ ['[']).getLast? = some c := by
          simpa [List.append_assoc] using hc
        rw [List.getLast?_concat] at this
        cases this
        decide
      | cons p ptl =>
        rw [hq] at hc
        have : ((t ++ [' '] ++ s ++ [' ', '[']) ++ (p :: ptl)).getLast? = some c := by
          simpa [List.append_assoc] using hc
        rw [List.getLast?_append_of_ne_nil _ (by simp)] at this
        exact hpbl c (hq ▸ this)
  have hshape2 : t ++ [' '] ++ s ++ [' ', '['] ++ pb =
      (t ++ [' '] ++ s ++ [' ']) ++ '[' :: pb := by
    simp [List.append_assoc]
  have hbr : ¬ ('[' ∈ t ++ [' '] ++ s ++ [' ']) := by
    intro hmem
    rcases List.mem_append.1 hmem with hm | hm
    · rcases List.mem_append.1 hm with hm2 | hm2
      · rcases List.mem_append.1 hm2 with hm3 | hm3
        · exact (ht _ hm3).2.1 rfl
        · simp at hm3
      · exact (hs _ hm2).2.1 rfl
    · simp at hm
  have hpbNoBr : ¬ ('[' ∈ pb) := fun hm => (hpb _ hm).1 rfl
  have hsplitBr : splitAll '[' (t ++ [' '] ++ s ++ [' ', '['] ++ pb) =
      [t ++ [' '] ++ s ++ [' '], pb] := by
    rw [hshape2, splitAll_append hbr, splitAll_no_sep hpbNoBr]
  have hpyX : pyStrip (t ++ [' '] ++ s ++ [' ']) = t ++ [' '] ++ s := by
    have hfront : List.dropWhile isPySpace (t ++ [' '] ++ s ++ [' ']) =
        t ++ [' '] ++ s ++ [' '] := by
      apply dropWhile_eq_self_of_head
      intro c hc
      rw [List.head?_append_of_ne_nil _ (by simp [ht0]),
          List.head?_append_of_ne_nil _ (by simp [ht0]),
          List.head?_append_of_ne_nil _ ht0] at hc
      exact (ht c (List.mem_of_mem_head? hc)).1
    have hback : List.dropWhile isPySpace ((t ++ [' '] ++ s).reverse) =
        (t ++ [' '] ++ s).reverse := by
      apply dropWhile_eq_self_of_head
      intro c hc
      rw [List.head?_reverse] at hc
      rw [List.getLast?_append_of_ne_nil _ hs0] at hc
      exact (hs c (mem_of_getLast?_some hc)).1
    unfold pyStrip
    rw [hfront, List.reverse_append, List.reverse_singleton, List.singleton_append,
        List.dropWhile_cons_of_pos (by decide), hback, List.reverse_reverse]
  have hshape3 : t ++ [' '] ++ s = t ++ ' ' :: s := by
    simp [List.append_assoc]
  have hsplitWs : pySplitWs (t ++ [' '] ++ s) = [t, s] := by
    rw [hshape3]
    exact pySplitWs_pair ht0 hs0 (fun c hc => (ht c hc).1) (fun c hc => (hs c hc).1)
  rw [hshape]
  unfold parse_data_line
  rw [splitOnce_append hslash]
  simp only [hpych, hsplitBr, unpack2, hpyX, hsplitWs]

theorem data_mk (l : List Char) : (String.mk l).data = l := rfl

theorem parse_line_lineOf
    (t s pb eng : List Char)
    (ht0 : t ≠ []) (hs0 : s ≠ [])
    (hhash : ∀ c, t.head? = some c → ¬ (c = '#'))
    (ht : ∀ c ∈ t, isPySpace c = false ∧ ¬ (c = '[') ∧ ¬ (c = '/'))
    (hs : ∀ c ∈ s, isPySpace c = false ∧ ¬ (c = '[') ∧ ¬ (c = '/'))
    (hpb : ∀ c ∈ pb, ¬ (c = '[') ∧ ¬ (c = '/'))
    (hpbl : ∀ c, pb.getLast? = some c → isPySpace c = false)
    (heng0 : eng ≠ [])
    (hengl : ∀ c, eng.getLast? = some c → isPySpace c = false ∧ ¬ (c = '/')) :
    parse_line ⟨lineOf t s pb eng⟩ =
      .ok (.entry { traditional := ⟨t⟩, simplified := ⟨s⟩, pinyin := ⟨pb.dropLast⟩,
                    definitions := defsOf eng }) := by
  have hstart : listStartsWith (lineOf t s pb eng) ['#'] = false := by
    cases hteq : t with
    | nil => exact absurd hteq ht0
    | cons a t' =>
      have ha := hhash a (by rw [hteq]; rfl)
      simp [lineOf, hteq, listStartsWith, ha]
  have hlast : (lineOf t s pb eng).getLast? = eng.getLast? := by
    unfold lineOf
    exact List.getLast?_append_of_ne_nil _ heng0
  have hpyl : pyStrip (lineOf t s pb eng) = lineOf t s pb eng := by
    apply pyStrip_eq_self
    · intro c hc
      unfold lineOf at hc
      rw [List.head?_append_of_ne_nil _ (by simp [ht0]),
          List.head?_append_of_ne_nil _ (by simp [ht0]),
          List.head?_append_of_ne_nil _ (by simp [ht0]),
          List.head?_append_of_ne_nil _ (by simp [ht0]),
          List.head?_append_of_ne_nil _ (by simp [ht0]),
          List.head?_append_of_ne_nil _ ht0] at hc
      exact (ht c (List.mem_of_mem_head? hc)).1
    · intro c hc
      rw [hlast] at hc
      exact (hengl c hc).1
  have hrsl : rstripSlash (lineOf t s pb eng) = lineOf t s pb eng := by
    apply rstripSlash_eq_self
    intro c hc
    rw [hlast] at hc
    exact (hengl c hc).2
  simp only [parse_line, data_mk, hstart, Bool.false_eq_true, if_false, hpyl, hrsl,
    parse_data_line_lineOf t s pb eng ht0 hs0 ht hs hpb hpbl]

theorem parseFileAux_ok_parses {lines : List String} {st st' : Store} {i : Nat}
    (h : parseFileAux lines st i = .ok st') :
    ∀ l ∈ lines, ∃ r, parse_line l = .ok r := by
  induction lines generalizing st i with
  | nil => intro l hl; simp at hl
  | cons a rest ih =>
    intro l hl
    rcases List.mem_cons.1 hl with rfl | hmem
    · cases hp : parse_line l with
      | error m =>
        simp only [parseFileAux, hp] at h
        exact Except.noConfusion h
      | ok r => exact ⟨r, rfl⟩
    · cases hp : parse_line a with
      | error m =>
        simp only [parseFileAux, hp] at h
        exact Except.noConfusion h
      | ok r =>
        cases r with
        | skip =>
          simp only [parseFileAux, hp] at h
          exact ih h l hmem
        | stamp dt =>
          simp only [parseFileAux, hp] at h
          exact ih h l hmem
        | entry e =>
          simp only [parseFileAux, hp] at h
          exact ih h l hmem

theorem parse_line_stamp_startsWith {l : String} {dt : DateTime}
    (h : parse_line l = .ok (.stamp dt)) :
    listStartsWith l.data DATE_TAG = true := by
  by_cases h1 : listStartsWith l.data ['#'] = true
  · by_cases h2 : listStartsWith l.data DATE_TAG = true
    · exact h2
    · simp [parse_line, h1, h2] at h
  · simp only [parse_line, h1, Bool.false_eq_true, if_false] at h
    cases hp : parse_data_line (rstripSlash (pyStrip l.data)) with
    | ok e => rw [hp] at h; simp at h
    | error m => rw [hp] at h; simp at h

theorem parseFileAux_datetime_none {lines : List String} {st st' : Store} {i : Nat}
    (hnd : ∀ l ∈ lines, listStartsWith l.data DATE_TAG = false)
    (hst : st.data_datetime = none)
    (h : parseFileAux lines st i = .ok st') :
    st'.data_datetime = none := by
  induction lines generalizing st i with
  | nil =>
    simp only [parseFileAux, Except.ok.injEq] at h
    rw [← h]
    exact hst
  | cons a rest ih =>
    cases hp : parse_line a with
    | error m =>
      simp only [parseFileAux, hp] at h
      exact Except.noConfusion h
    | ok r =>
      cases r with
      | skip =>
        simp only [parseFileAux, hp] at h
        exact ih (fun l hl => hnd l (List.mem_cons_of_mem _ hl)) hst h
      | stamp dt =>
        have hsw := parse_line_stamp_startsWith hp
        rw [hnd a (List.mem_cons_self a rest)] at hsw
        exact absurd hsw (by simp)
      | entry e =>
        simp only [parseFileAux, hp] at h
        exact ih (fun l hl => hnd l (List.mem_cons_of_mem _ hl)) (by simp [hst]) h

/-! ## The claims -/

/-- C1: the claim states that `get_entry` checks the traditional index
first, so a string "h" that is entry X's traditional form and a different
entry Y's simplified form resolves to X.  The code (source lines 105-117)
checks the *simplified* index first: in the two-line store where "h" is
X's traditional form and Y's simplified form, `get_entry "h"` returns Y,
not X. -/
theorem C1_counterexample :
    (match buildStore ["h a [p1] /dx/", "b h [p2] /dy/"] with
     | .ok st => get_entry st "h"
     | .error _ => none)
    = some { traditional := "b", simplified := "h", pinyin := "p2",
             definitions := ["dy"] } ∧
    (match buildStore ["h a [p1] /dx/", "b h [p2] /dy/"] with
     | .ok st => get_entry st "h"
     | .error _ => none)
    ≠ some { traditional := "h", simplified := "a", pinyin := "p1",
             definitions := ["dx"] } := by
  refine ⟨rfl, fun hcontra => ?_⟩
  have h1 : (some { traditional := "b", simplified := "h", pinyin := "p2",
                    definitions := ["dy"] } : Option Entry)
      = some { traditional := "h", simplified := "a", pinyin := "p1",
               definitions := ["dx"] } := hcontra
  simp at h1

/-- C1 (amended): `get_entry` checks the *simplified* index first, so when
a string "h" is simultaneously entry X's traditional form and a different
entry Y's simplified form in a two-line store, the lookup resolves to Y
(simplified wins over traditional on a cross-index collision). -/
theorem C1_simplified_wins (lX lY : String) (eX eY : Entry) (h : String)
    (h1 : parse_line lX = .ok (.entry eX)) (h2 : parse_line lY = .ok (.entry eY))
    (hne : eX ≠ eY)
    (hX : eX.traditional = h) (hY : eY.simplified = h) :
    ∃ st, buildStore [lX, lY] = .ok st ∧ get_entry st h = some eY := by
  refine ⟨{ entries := [eX, eY],
            simplified_to_index := [(eX.simplified, 0), (eY.simplified, 1)],
            traditional_to_index := [(eX.traditional, 0), (eY.traditional, 1)],
            data_datetime := none }, ?_, ?_⟩
  · simp [buildStore, parseFileAux, h1, h2, dictSet]
  · simp [get_entry, dictGet, hY]

/-- Witness for C1 at the concrete two-line collision store. -/
theorem C1_simplified_wins_witness :
    parse_line "h a [p1] /dx/" =
      .ok (.entry { traditional := "h", simplified := "a", pinyin := "p1",
                    definitions := ["dx"] }) ∧
    (∃ st, buildStore ["h a [p1] /dx/", "b h [p2] /dy/"] = .ok st ∧
      get_entry st "h" = some { traditional := "b", simplified := "h",
                                pinyin := "p2", definitions := ["dy"] }) :=
  ⟨rfl, C1_simplified_wins "h a [p1] /dx/" "b h [p2] /dy/"
     { traditional := "h", simplified := "a", pinyin := "p1", definitions := ["dx"] }
     { traditional := "b", simplified := "h", pinyin := "p2", definitions := ["dy"] }
     "h" rfl rfl (by decide) rfl rfl⟩

/-- C2: the claim says at most one trailing `/` is removed, so a line
ending in "//" keeps a trailing empty definition.  The code's
`rstrip('/')` removes *every* trailing slash: parsing the line
"a b [c] /love//" yields definitions ["love"], not ["love", ""]. -/
theorem C2_counterexample :
    parse_line "a b [c] /love//" =
      .ok (.entry { traditional := "a", simplified := "b", pinyin := "c",
                    definitions := ["love"] }) ∧
    parse_line "a b [c] /love//" ≠
      .ok (.entry { traditional := "a", simplified := "b", pinyin := "c",
                    definitions := ["love", ""] }) := by
  refine ⟨rfl, fun hcontra => ?_⟩
  have h1 : (Except.ok (LineOut.entry { traditional := "a", simplified := "b",
                                        pinyin := "c", definitions := ["love"] })
        : Except String LineOut)
      = Except.ok (LineOut.entry { traditional := "a", simplified := "b",
                                   pinyin := "c",
                                   definitions := ["love", ""] }) := hcontra
  simp at h1

/-- C2 (amended): after trimming, the parser removes *every* trailing `/`
(not at most one): appending any number of extra trailing slashes to a
trimmed non-comment line leaves the parse result unchanged, so a data
line ending in "//" does not keep a trailing empty definition. -/
theorem C2_all_trailing_slashes_removed (l : List Char) (n : Nat)
    (hc : listStartsWith l ['#'] = false)
    (hh : ∀ c, l.head? = some c → isPySpace c = false)
    (hl : ∀ c, l.getLast? = some c → isPySpace c = false) :
    parse_line ⟨l ++ List.replicate n '/'⟩ = parse_line ⟨l⟩ := by
  have hrep0 : ∀ x : List Char,
      List.dropWhile (fun c => c = '/') (List.replicate n '/' ++ x) =
      List.dropWhile (fun c => c = '/') x := by
    intro x
    induction n with
    | zero => simp
    | succ k ih =>
      rw [List.replicate_succ, List.cons_append,
        List.dropWhile_cons_of_pos (by decide), ih]
  have hrs : rstripSlash (l ++ List.replicate n '/') = rstripSlash l := by
    unfold rstripSlash
    rw [List.reverse_append, List.reverse_replicate, hrep0]
  have hstart2 : listStartsWith (l ++ List.replicate n '/') ['#'] = false := by
    cases l with
    | nil =>
      rw [List.nil_append]
      cases n with
      | zero => rfl
      | succ k => rw [List.replicate_succ]; simp [listStartsWith]
    | cons a tl =>
      rw [List.cons_append]
      have hthis : listStartsWith (a :: tl) ['#'] = false := hc
      simp only [listStartsWith] at hthis ⊢
      exact hthis
  have hpy1 : pyStrip l = l := pyStrip_eq_self hh hl
  have hpy2 : pyStrip (l ++ List.replicate n '/') = l ++ List.replicate n '/' := by
    apply pyStrip_eq_self
    · intro c hcc
      cases l with
      | nil =>
        rw [List.nil_append] at hcc
        cases n with
        | zero => simp at hcc
        | succ k =>
          rw [List.replicate_succ, List.head?_cons] at hcc
          cases hcc
          decide
      | cons a tl =>
        rw [List.cons_append, List.head?_cons] at hcc
        cases hcc
        exact hh _ rfl
    · intro c hcc
      cases n with
      | zero =>
        rw [List.replicate, List.append_nil] at hcc
        exact hl c hcc
      | succ k =>
        rw [List.replicate_succ', ← List.append_assoc, List.getLast?_concat] at hcc
        cases hcc
        decide
  simp only [parse_line, data_mk, hstart2, hc, Bool.false_eq_true, if_false,
    hpy1, hpy2, hrs]

/-- Witness for C2: two extra trailing slashes on a concrete trimmed line
are all removed. -/
theorem C2_all_trailing_slashes_removed_witness :
    parse_line ⟨("a b [c] /love".data) ++ List.replicate 2 '/'⟩ =
      parse_line "a b [c] /love" :=
  C2_all_trailing_slashes_removed ("a b [c] /love".data) 2 (by decide)
    (by intro c hc; cases hc; decide) (by intro c hc; cases hc; decide)

/-- C3: the claim says a pinyin segment that does not end in `]` is a
fatal parse error.  The code does `pinyin[:-1]` unconditionally, which
never raises: the line "a b [c4 /x/" (no closing bracket anywhere)
parses successfully into an Entry whose pinyin is "c" — the parser
silently derives a pinyin from the bracketless segment. -/
theorem C3_counterexample :
    parse_line "a b [c4 /x/" =
      .ok (.entry { traditional := "a", simplified := "b", pinyin := "c",
                    definitions := ["x"] }) := rfl

/-- C3 (amended): for a well-formed non-comment data line whose pinyin
segment does *not* end with `]`, parsing still succeeds — no error is
raised; the final character of the segment (whatever it is) is removed
unconditionally and the rest becomes the pinyin. -/
theorem C3_missing_bracket_not_fatal
    (t s pb eng : List Char)
    (ht0 : t ≠ []) (hs0 : s ≠ [])
    (hhash : ∀ c, t.head? = some c → ¬ (c = '#'))
    (ht : ∀ c ∈ t, isPySpace c = false ∧ ¬ (c = '[') ∧ ¬ (c = '/'))
    (hs : ∀ c ∈ s, isPySpace c = false ∧ ¬ (c = '[') ∧ ¬ (c = '/'))
    (hpb : ∀ c ∈ pb, ¬ (c = '[') ∧ ¬ (c = '/'))
    (hpbl : ∀ c, pb.getLast? = some c → isPySpace c = false)
    (heng0 : eng ≠ [])
    (hengl : ∀ c, eng.getLast? = some c → isPySpace c = false ∧ ¬ (c = '/'))
    (hnobr : pb.getLast? ≠ some ']') :
    parse_line ⟨lineOf t s pb eng⟩ =
      .ok (.entry { traditional := ⟨t⟩, simplified := ⟨s⟩,
                    pinyin := ⟨pb.dropLast⟩, definitions := defsOf eng }) :=
  parse_line_lineOf t s pb eng ht0 hs0 hhash ht hs hpb hpbl heng0 hengl

/-- Witness for C3 at the bracketless segment "c4". -/
theorem C3_missing_bracket_not_fatal_witness :
    (['c', '4'] : List Char).getLast? ≠ some ']' ∧
    parse_line ⟨lineOf ['a'] ['b'] ['c', '4'] ['x']⟩ =
      .ok (.entry { traditional := "a", simplified := "b", pinyin := "c",
                    definitions := ["x"] }) :=
  ⟨by decide,
   C3_missing_bracket_not_fatal ['a'] ['b'] ['c', '4'] ['x']
     (by decide) (by decide)
     (by intro c hc; cases hc; decide)
     (by decide) (by decide) (by decide)
     (by intro c hc; cases hc; decide)
     (by decide)
     (by intro c hc; cases hc; decide)
     (by decide)⟩

/-- C4: two lines whose entries share the simplified form but have
different traditional forms build a store whose simplified index maps
that form to position 1 (the second, later entry) while both entries
remain, in file order, in the sequence returned by `get_entries`. -/
theorem C4_last_write_wins (l1 l2 : String) (e1 e2 : Entry)
    (h1 : parse_line l1 = .ok (.entry e1)) (h2 : parse_line l2 = .ok (.entry e2))
    (hsimp : e1.simplified = e2.simplified)
    (htrad : e1.traditional ≠ e2.traditional) :
    ∃ st, buildStore [l1, l2] = .ok st ∧
      dictGet st.simplified_to_index e2.simplified = some 1 ∧
      get_entries st = [e1, e2] := by
  refine ⟨{ entries := [e1, e2],
            simplified_to_index := [(e1.simplified, 0), (e2.simplified, 1)],
            traditional_to_index := [(e1.traditional, 0), (e2.traditional, 1)],
            data_datetime := none }, ?_, ?_, rfl⟩
  · simp [buildStore, parseFileAux, h1, h2, dictSet]
  · simp [dictGet]

/-- Witness for C4 with the duplicate simplified form "S". -/
theorem C4_last_write_wins_witness :
    parse_line "X1 S [p1] /d1/" =
      .ok (.entry { traditional := "X1", simplified := "S", pinyin := "p1",
                    definitions := ["d1"] }) ∧
    (∃ st, buildStore ["X1 S [p1] /d1/", "X2 S [p2] /d2/"] = .ok st ∧
      dictGet st.simplified_to_index "S" = some 1 ∧
      get_entries st = [{ traditional := "X1", simplified := "S", pinyin := "p1",
                          definitions := ["d1"] },
                        { traditional := "X2", simplified := "S", pinyin := "p2",
                          definitions := ["d2"] }]) :=
  ⟨rfl, C4_last_write_wins "X1 S [p1] /d1/" "X2 S [p2] /d2/"
     { traditional := "X1", simplified := "S", pinyin := "p1", definitions := ["d1"] }
     { traditional := "X2", simplified := "S", pinyin := "p2", definitions := ["d2"] }
     rfl rfl rfl (by decide)⟩

/-- C5: parsing the synthetic line from the spec yields exactly
traditional 愛, simplified 爱, pinyin "ai4" and definitions
["love", "affection"], in that order. -/
theorem C5_round_trip_parse :
    parse_line "愛 爱 [ai4] /love/affection/" =
      .ok (.entry { traditional := "愛", simplified := "爱", pinyin := "ai4",
                    definitions := ["love", "affection"] }) := rfl

theorem parse_data_line_ok_defs {l : List Char} {e : Entry}
    (h : parse_data_line l = .ok e) :
    ∃ chin eng, splitOnce '/' l = some (chin, eng) ∧ e.definitions = defsOf eng := by
  cases h1 : splitOnce '/' l with
  | none =>
    simp only [parse_data_line, h1] at h
    exact Except.noConfusion h
  | some p =>
    obtain ⟨chin, eng⟩ := p
    refine ⟨chin, eng, rfl, ?_⟩
    cases h2 : unpack2 (splitAll '[' (pyStrip chin)) with
    | error m =>
      simp only [parse_data_line, h1, h2] at h
      exact Except.noConfusion h
    | ok q =>
      obtain ⟨ts0, pbr⟩ := q
      cases h3 : unpack2 (pySplitWs (pyStrip ts0)) with
      | error m =>
        simp only [parse_data_line, h1, h2, h3] at h
        exact Except.noConfusion h
      | ok q2 =>
        obtain ⟨trad, simpl⟩ := q2
        simp only [parse_data_line, h1, h2, h3, Except.ok.injEq] at h
        rw [← h]

/-- C6: for every successfully parsed data line, the definitions field is
exactly the english part (the text after the first `/` of the trimmed,
slash-stripped line) split on `/` into senses, each sense split on `;`
into glosses, flattened in source order (`defsOf`). -/
theorem C6_definitions_flatten (line : String) (e : Entry)
    (h : parse_line line = .ok (.entry e)) :
    ∃ chin eng, splitOnce '/' (rstripSlash (pyStrip line.data)) = some (chin, eng) ∧
      e.definitions = defsOf eng := by
  by_cases h1 : listStartsWith line.data ['#'] = true
  · by_cases h2 : listStartsWith line.data DATE_TAG = true
    · cases hs : strptimeZ (pyStrip (line.data.drop DATE_TAG.length)) with
      | ok dt => simp [parse_line, h1, h2, hs] at h
      | error m => simp [parse_line, h1, h2, hs] at h
    · simp [parse_line, h1, h2] at h
  · cases hp : parse_data_line (rstripSlash (pyStrip line.data)) with
    | error m => simp [parse_line, h1, hp] at h
    | ok e2 =>
      have he : e2 = e := by
        simp only [parse_line, h1, Bool.false_eq_true, if_false, hp,
          Except.ok.injEq, LineOut.entry.injEq] at h
        exact h
      exact he ▸ parse_data_line_ok_defs hp

/-- Witness for C6 at the spec's english part
"to love/to be fond of;to cherish". -/
theorem C6_definitions_flatten_witness :
    parse_line "a b [c] /to love/to be fond of;to cherish/" =
      .ok (.entry { traditional := "a", simplified := "b", pinyin := "c",
                    definitions := ["to love", "to be fond of", "to cherish"] }) ∧
    (∃ chin eng,
      splitOnce '/' (rstripSlash (pyStrip
        ("a b [c] /to love/to be fond of;to cherish/").data)) = some (chin, eng) ∧
      ({ traditional := "a", simplified := "b", pinyin := "c",
         definitions := ["to love", "to be fond of", "to cherish"] } : Entry).definitions
        = defsOf eng) :=
  ⟨rfl, C6_definitions_flatten "a b [c] /to love/to be fond of;to cherish/"
     { traditional := "a", simplified := "b", pinyin := "c",
       definitions := ["to love", "to be fond of", "to cherish"] } rfl⟩

/-- C7: a line sequence containing a non-comment line with no `/` at all,
or one whose headword segment does not split into exactly two whitespace
tokens, makes the whole build return an error: the error propagates to
the caller of the constructor and no store value is produced. -/
theorem C7_build_aborts_on_malformed (lines : List String) (bad : String)
    (hmem : bad ∈ lines)
    (hc : listStartsWith bad.data ['#'] = false)
    (hbad : ('/' ∉ bad.data) ∨
      (∃ chin eng ts0 pbr,
        splitOnce '/' (rstripSlash (pyStrip bad.data)) = some (chin, eng) ∧
        unpack2 (splitAll '[' (pyStrip chin)) = .ok (ts0, pbr) ∧
        (pySplitWs (pyStrip ts0)).length ≠ 2)) :
    ∃ msg, buildStore lines = .error msg := by
  have herr : ∃ m, parse_line bad = .error m := by
    rcases hbad with hns | ⟨chin, eng, ts0, pbr, hsp, hun, hlen⟩
    · have hm1 : '/' ∉ pyStrip bad.data := fun hm => hns (mem_of_mem_pyStrip hm)
      have hm2 : '/' ∉ rstripSlash (pyStrip bad.data) :=
        fun hm => hm1 (mem_of_mem_rstripSlash hm)
      refine ⟨"not enough values to unpack (expected 2, got 1)", ?_⟩
      simp only [parse_line, hc, Bool.false_eq_true, if_false, parse_data_line,
        splitOnce_eq_none hm2]
    · obtain ⟨m, hm⟩ := unpack2_error_of_length _ hlen
      refine ⟨m, ?_⟩
      simp only [parse_line, hc, Bool.false_eq_true, if_false, parse_data_line,
        hsp, hun, hm]
  obtain ⟨m, hm⟩ := herr
  cases hb : buildStore lines with
  | ok st =>
    unfold buildStore at hb
    obtain ⟨r, hr⟩ := parseFileAux_ok_parses hb bad hmem
    rw [hr] at hm
    exact Except.noConfusion hm
  | error msg => exact ⟨msg, rfl⟩

/-- Witness for C7: the slash-less line "ab cd" aborts the build. -/
theorem C7_build_aborts_on_malformed_witness :
    ("ab cd" ∈ ["ab cd"]) ∧ ('/' ∉ "ab cd".data) ∧
    (∃ msg, buildStore ["ab cd"] = .error msg) :=
  ⟨by decide, by decide,
   C7_build_aborts_on_malformed ["ab cd"] "ab cd" (by decide) (by decide)
     (Or.inl (by decide))⟩

/-- C8: when no line of the file starts with the `#! date=` tag, the built
store records no timestamp and `get_data_days_old` fails with the
distinct "Data datetime is not set." error — it never returns a numeric
value such as zero. -/
theorem C8_missing_timestamp_error (lines : List String) (st : Store)
    (now : DateTime)
    (hbuild : buildStore lines = .ok st)
    (hnd : ∀ l ∈ lines, listStartsWith l.data DATE_TAG = false) :
    get_data_days_old st now = .error "Data datetime is not set." := by
  have hnone : st.data_datetime = none := by
    unfold buildStore at hbuild
    exact parseFileAux_datetime_none hnd rfl hbuild
  unfold get_data_days_old
  rw [hnone]

/-- Witness for C8 on a one-line file with no date tag. -/
theorem C8_missing_timestamp_error_witness :
    buildStore ["a b [c] /d/"] =
      .ok { entries := [{ traditional := "a", simplified := "b", pinyin := "c",
                          definitions := ["d"] }],
            simplified_to_index := [("b", 0)],
            traditional_to_index := [("a", 0)],
            data_datetime := none } ∧
    get_data_days_old
      { entries := [{ traditional := "a", simplified := "b", pinyin := "c",
                      definitions := ["d"] }],
        simplified_to_index := [("b", 0)],
        traditional_to_index := [("a", 0)],
        data_datetime := none } ⟨2024, 11, 18, 23, 6, 27⟩ =
      .error "Data datetime is not set." :=
  ⟨rfl, C8_missing_timestamp_error ["a b [c] /d/"] _ _ rfl (by decide)⟩

/-- C9: the claim says blank lines yield the skip signal.  They do not:
a blank line is not `#`-prefixed, survives stripping as the empty string,
contains no `/`, and the two-name unpacking raises — both "" and "  "
produce the `ValueError`, not a skip and not an Entry. -/
theorem C9_counterexample :
    parse_line "" = .error "not enough values to unpack (expected 2, got 1)" ∧
    parse_line "   " = .error "not enough values to unpack (expected 2, got 1)" :=
  ⟨rfl, rfl⟩

/-- C9 (amended): every blank (empty or whitespace-only) line is a fatal
parse error: the parser raises the unpack `ValueError` instead of
skipping, so a blank line aborts the whole build; only `#`-prefixed lines
produce the skip signal. -/
theorem C9_blank_line_error (line : String)
    (hws : ∀ c ∈ line.data, isPySpace c = true) :
    parse_line line = .error "not enough values to unpack (expected 2, got 1)" := by
  have hc : listStartsWith line.data ['#'] = false := by
    cases hd : line.data with
    | nil => rfl
    | cons a tl =>
      have ha := hws a (by rw [hd]; exact List.mem_cons_self a tl)
      have ha2 : ¬ (a = '#') := by
        intro he
        rw [he] at ha
        exact absurd ha (by decide)
      simp [listStartsWith, ha2]
  have hstrip : pyStrip line.data = [] := by
    unfold pyStrip
    rw [List.dropWhile_eq_nil_iff.2 hws]
    rfl
  simp only [parse_line, hc, Bool.false_eq_true, if_false, hstrip]
  rfl

/-- Witness for C9 at the two-space line. -/
theorem C9_blank_line_error_witness :
    (∀ c ∈ ("  ").data, isPySpace c = true) ∧
    parse_line "  " = .error "not enough values to unpack (expected 2, got 1)" :=
  ⟨by decide, C9_blank_line_error "  " (by decide)⟩

/-- C10: comment classification is decided on the raw, untrimmed line: if
the first character is `#`, the parser never produces an Entry (the line
is skipped, consulted for the date tag, or fails on a malformed date);
if the first character is not `#` — even for whitespace followed by `#` —
the line is parsed as a data line, producing an Entry or a data parse
error, never the skip or timestamp signal. -/
theorem C10_comment_on_raw_line (line : String) :
    (listStartsWith line.data ['#'] = true →
      ∀ e, parse_line line ≠ .ok (.entry e))
  ∧ (listStartsWith line.data ['#'] = false →
      (∃ e, parse_line line = .ok (.entry e)) ∨ (∃ m, parse_line line = .error m)) := by
  constructor
  · intro h1 e
    by_cases h2 : listStartsWith line.data DATE_TAG = true
    · cases hs : strptimeZ (pyStrip (line.data.drop DATE_TAG.length)) with
      | ok dt => simp [parse_line, h1, h2, hs]
      | error m => simp [parse_line, h1, h2, hs]
    · simp [parse_line, h1, h2]
  · intro h1
    cases hp : parse_data_line (rstripSlash (pyStrip line.data)) with
    | ok e => exact Or.inl ⟨e, by simp [parse_line, h1, hp]⟩
    | error m => exact Or.inr ⟨m, by simp [parse_line, h1, hp]⟩

/-- Witness for C10: the line " #a b [c] /d/" (whitespace before `#`) is
not classified as a comment; it is parsed as a data line. -/
theorem C10_comment_on_raw_line_witness :
    listStartsWith (" #a b [c] /d/").data ['#'] = false ∧
    ((∃ e, parse_line " #a b [c] /d/" = .ok (.entry e)) ∨
      (∃ m, parse_line " #a b [c] /d/" = .error m)) :=
  ⟨by decide, (C10_comment_on_raw_line " #a b [c] /d/").2 (by decide)⟩
